import Mathlib

/-!
Verification of the group membership / access-control core of the l-yoga
secure group messaging service (Express + Mongoose).  The JavaScript
controllers, the Mongoose schemas and the route middleware are shallowly
embedded as pure state-transforming functions over a document-store state.
User, group and request documents are keyed by numeric ids standing for
Mongo ObjectIds; timestamps other than `processedAt` are not modelled.
-/

namespace LYoga

/-- Visibility of a group: the `type` field of `groupSchema`
(enum `public` / `private`, default public). -/
inductive GType
  | pub
  | priv
  deriving DecidableEq, Repr

/-- Status of a join request: `joinRequestSchema.status`
(enum pending / approved / rejected, default pending). -/
inductive JRStatus
  | pending
  | approved
  | rejected
  deriving DecidableEq, Repr

/-- A Group document as persisted by `groupSchema` (src/models/Group.js).
The schema paths are: name, type, description, owner, members, admins,
encryptionKey, createdAt.  There is NO `maxMembers` path: `maxMembers` is
kept here as an `Option Nat` so that reads of the absent path
(`group.maxMembers`, `undefined` in JS) can be expressed; mongoose strict
mode (the default) discards the value supplied to the constructor, so
every document built by the schema carries `none`. -/
structure Group where
  gid : Nat
  name : String
  gtype : GType
  description : String
  owner : Nat
  members : List Nat
  admins : List Nat
  maxMembers : Option Nat
  encryptionKey : String
  deriving DecidableEq, Repr

/-- A JoinRequest document (`joinRequestSchema`): group id, user id,
status, and the optional `processedAt` date (a `Date` path with no
default, so absent unless some write sets it). -/
structure JoinRequest where
  group : Nat
  user : Nat
  status : JRStatus
  processedAt : Option Nat
  deriving DecidableEq, Repr

/-- A User document (`userSchema`): identified by id, carrying the
`joinedGroups` derived index.  Email and password handling is external
to the membership core and is not modelled. -/
structure UserDoc where
  uid : Nat
  joinedGroups : List Nat
  deriving DecidableEq, Repr

/-- A Message document (`messageSchema` as used by the message
controller): group id, sender id, encrypted content and iv. -/
structure MsgDoc where
  group : Nat
  sender : Nat
  encryptedContent : String
  iv : String
  deriving DecidableEq, Repr

/-- The document store: the four collections the controllers touch. -/
structure St where
  groups : List Group
  requests : List JoinRequest
  users : List UserDoc
  messages : List MsgDoc
  deriving DecidableEq, Repr

/-- An HTTP response as produced by `res.status(n).json(\x7b message \x7d)`:
the status code and the message string. -/
structure Resp where
  status : Nat
  msg : String
  deriving DecidableEq, Repr

/-- `Array.prototype.includes` on an id array. -/
def memb (x : Nat) (l : List Nat) : Bool :=
  l.contains x

/-- Mongoose `array.pull(x)`: removes every occurrence of `x`. -/
def pull (x : Nat) (l : List Nat) : List Nat :=
  l.filter (fun y => y != x)

/-- The `if (!arr.includes(x)) arr.push(x)` idiom used by the pre-save
hook, `transferOwnership` and `updateMemberRole`. -/
def pushIfAbsent (x : Nat) (l : List Nat) : List Nat :=
  if memb x l then l else l ++ [x]

/-- `Group.findById(id)`. -/
def findGroup (st : St) (gid : Nat) : Option Group :=
  st.groups.find? (fun g => g.gid == gid)

/-- `User.findById(id)`. -/
def findUser (st : St) (uid : Nat) : Option UserDoc :=
  st.users.find? (fun u => u.uid == uid)

/-- The `groupSchema.pre('save')` hook: pushes the owner into `members`
and into `admins` when absent. -/
def preSave (g : Group) : Group :=
  { g with
    members := pushIfAbsent g.owner g.members,
    admins := pushIfAbsent g.owner g.admins }

/-- `group.save()` on a fetched-and-mutated document: runs the pre-save
hook and writes the document back over the one with the same id. -/
def saveGroup (st : St) (g : Group) : St :=
  { st with groups := st.groups.map (fun h => if h.gid == g.gid then preSave g else h) }

/-- `User.findByIdAndUpdate(uid, \x7b push joinedGroups gid \x7d)`:
appends `gid` to the user's index when the user exists. -/
def userPushGroup (st : St) (uid gid : Nat) : St :=
  { st with users := st.users.map (fun u =>
      if u.uid == uid then { u with joinedGroups := u.joinedGroups ++ [gid] } else u) }

/-- `User.findByIdAndUpdate(uid, \x7b pull joinedGroups gid \x7d)`. -/
def userPullGroup (st : St) (uid gid : Nat) : St :=
  { st with users := st.users.map (fun u =>
      if u.uid == uid then { u with joinedGroups := u.joinedGroups.filter (fun h => h != gid) } else u) }

/-- The `JoinRequest.findOne(\x7b group, user, status: 'pending' \x7d)`
match predicate. -/
def isPendingFor (gid uid : Nat) (r : JoinRequest) : Bool :=
  r.group == gid && r.user == uid && decide (r.status = JRStatus.pending)

/-- Number of pending JoinRequest records for a (group, user) pair. -/
def pendingCount (st : St) (gid uid : Nat) : Nat :=
  (st.requests.filter (isPendingFor gid uid)).length

/-- Mongoose update of the single document matched by `findOne` /
`findOneAndUpdate`: rewrites the first list entry satisfying `p`. -/
def updateFirst (p : JoinRequest → Bool) (f : JoinRequest → JoinRequest) :
    List JoinRequest → List JoinRequest
  | [] => []
  | r :: rs => if p r then f r :: rs else r :: updateFirst p f rs

/-- JS comparison `group.members.length >= group.maxMembers` used by
`joinGroup`: when the `maxMembers` path is absent the right-hand side is
`undefined` and the comparison is false. -/
def jsLengthGE (n : Nat) (m : Option Nat) : Bool :=
  match m with
  | none => false
  | some k => decide (n ≥ k)

/-- JS guard `group.maxMembers && group.members.length >= group.maxMembers`
used by `addMemberToGroup`: an absent path or the value 0 is falsy. -/
def jsCapacityGuard (n : Nat) (m : Option Nat) : Bool :=
  match m with
  | none => false
  | some k => if k = 0 then false else decide (n ≥ k)

/-- `register` (authController): creates a User document; `joinedGroups`
starts empty.  Credential handling is external to this core. -/
def registerUser (st : St) (uid : Nat) : St :=
  { st with users := st.users ++ [⟨uid, []⟩] }

/-- `createGroup` (groupController): rejects when `Group.findOne(\x7b name \x7d)`
matches any existing group, of either visibility; otherwise builds the
document (schema trims the name, seeds members and admins with the owner,
generates `encryptionKey` by default — passed in here as `key`, like the
generated id `gid`) and saves it, then pushes the group onto the creator's
`joinedGroups`.  The requested `maxMembers` has no schema path, so strict
mode drops it: the stored document carries `none`. -/
def createGroup (st : St) (caller : Nat) (name : String) (ty : GType)
    (description : String) (_requestedMaxMembers : Option Nat)
    (gid : Nat) (key : String) : Resp × St :=
  if st.groups.any (fun g => g.name == name) then
    (⟨400, "Group name already exists"⟩, st)
  else
    let g : Group :=
      { gid := gid, name := name.trim, gtype := ty, description := description,
        owner := caller, members := [caller], admins := [caller],
        maxMembers := none, encryptionKey := key }
    let st1 : St := { st with groups := st.groups ++ [preSave g] }
    (⟨201, "Group created successfully"⟩, userPushGroup st1 caller gid)

/-- `deleteGroup` (groupController): 404 when the group is absent, 403
when the caller is not the owner.  After the owner check the first
statement executed is `Message.deleteMany(...)`, but `Message` is not
bound anywhere in the groupController module (its imports are Group,
JoinRequest, User and express-validator), so a ReferenceError is thrown
and lands in the catch block: the response is 500 "Server error" and no
record of any collection has been touched. -/
def deleteGroup (st : St) (caller gid : Nat) : Resp × St :=
  match findGroup st gid with
  | none => (⟨404, "Group not found"⟩, st)
  | some g =>
    if g.owner != caller then (⟨403, "Only the owner can delete the group"⟩, st)
    else (⟨500, "Server error"⟩, st)

/-- The `roleMiddleware` factory `checkRole(roles)`: fetches the group,
404 when absent; passes the request through (`none`) when the caller has
one of the listed roles, otherwise 403.  The role tokens are the strings
used in groupRoutes. -/
def checkRole (roles : List String) (st : St) (caller gid : Nat) : Option Resp :=
  match findGroup st gid with
  | none => some ⟨404, "Group not found"⟩
  | some g =>
    let hasRole := roles.any (fun role =>
      if role == "owner" then g.owner == caller
      else if role == "admin" then memb caller g.admins
      else false)
    if hasRole then none else some ⟨403, "Insufficient permissions"⟩

/-- A route `[authMiddleware, checkRole(roles)], controller`: the
controller result stands, unless the middleware rejects first. -/
def withRole (roles : List String) (st : St) (caller gid : Nat)
    (k : Resp × St) : Resp × St :=
  match checkRole roles st caller gid with
  | some r => (r, st)
  | none => k

/-- `joinGroup` (groupController): membership guard, then the capacity
comparison against the (absent) `maxMembers` path, then either a direct
join for public groups or, for private ones, a pending JoinRequest —
refused when ANY request (of any status) already exists for the pair. -/
def joinGroup (st : St) (caller gid : Nat) : Resp × St :=
  match findGroup st gid with
  | none => (⟨404, "Group not found"⟩, st)
  | some g =>
    if memb caller g.members then (⟨400, "Already a member of this group"⟩, st)
    else if jsLengthGE g.members.length g.maxMembers then (⟨400, "Group is full"⟩, st)
    else if g.gtype = GType.pub then
      let st1 := saveGroup st { g with members := g.members ++ [caller] }
      (⟨200, "Successfully joined the group"⟩, userPushGroup st1 caller gid)
    else
      if st.requests.any (fun r => r.group == gid && r.user == caller) then
        (⟨400, "Join request already sent"⟩, st)
      else
        (⟨200, "Join request sent successfully"⟩,
          { st with requests := st.requests ++ [⟨gid, caller, JRStatus.pending, none⟩] })

/-- `leaveGroup` (groupController). -/
def leaveGroup (st : St) (caller gid : Nat) : Resp × St :=
  match findGroup st gid with
  | none => (⟨404, "Group not found"⟩, st)
  | some g =>
    if !memb caller g.members then (⟨400, "Not a member of this group"⟩, st)
    else if g.owner == caller then
      (⟨400, "Group owner cannot leave without transferring ownership"⟩, st)
    else
      let st1 := saveGroup st { g with members := pull caller g.members, admins := pull caller g.admins }
      (⟨200, "Successfully left the group"⟩, userPullGroup st1 caller gid)

/-- `transferOwnership` (groupController). -/
def transferOwnership (st : St) (caller gid newOwnerId : Nat) : Resp × St :=
  match findGroup st gid with
  | none => (⟨404, "Group not found"⟩, st)
  | some g =>
    if g.owner != caller then (⟨403, "Only group owner can transfer ownership"⟩, st)
    else
      match findUser st newOwnerId with
      | none => (⟨404, "New owner not found"⟩, st)
      | some _ =>
        if !memb newOwnerId g.members then (⟨400, "New owner must be a group member"⟩, st)
        else
          let g1 := { g with owner := newOwnerId }
          let g2 := { g1 with admins := pushIfAbsent newOwnerId g1.admins }
          let g3 := { g2 with members := pushIfAbsent newOwnerId g2.members }
          (⟨200, "Ownership transferred successfully"⟩, saveGroup st g3)

/-- `updateMemberRole` (groupController): owner/admin gate, target must
exist and be a member; 'admin' pushes into admins when absent, 'member'
is refused on the owner and pulls from admins, anything else is invalid. -/
def updateMemberRole (st : St) (caller gid targetUser : Nat) (role : String) : Resp × St :=
  match findGroup st gid with
  | none => (⟨404, "Group not found"⟩, st)
  | some g =>
    if !(g.owner == caller) && !(memb caller g.admins) then
      (⟨403, "Not authorized to manage roles"⟩, st)
    else
      match findUser st targetUser with
      | none => (⟨404, "User not found"⟩, st)
      | some _ =>
        if !memb targetUser g.members then (⟨400, "User is not a group member"⟩, st)
        else if role == "admin" then
          (⟨200, "Member role updated successfully"⟩,
            saveGroup st { g with admins := pushIfAbsent targetUser g.admins })
        else if role == "member" then
          if g.owner == targetUser then (⟨400, "Cannot change owner role"⟩, st)
          else
            (⟨200, "Member role updated successfully"⟩,
              saveGroup st { g with admins := pull targetUser g.admins })
        else (⟨400, "Invalid role specified"⟩, st)

/-- `requestJoinPrivateGroup` (groupController): only for private
groups and non-members; refused when a pending record already exists for
the pair, otherwise creates a pending JoinRequest (no `processedAt`). -/
def requestJoinPrivateGroup (st : St) (caller gid : Nat) : Resp × St :=
  match findGroup st gid with
  | none => (⟨404, "Group not found"⟩, st)
  | some g =>
    if g.gtype ≠ GType.priv then (⟨400, "This group is not private"⟩, st)
    else if memb caller g.members then (⟨400, "Already a member of this group"⟩, st)
    else if st.requests.any (isPendingFor gid caller) then
      (⟨400, "Join request already pending"⟩, st)
    else
      (⟨200, "Join request submitted"⟩,
        { st with requests := st.requests ++ [⟨gid, caller, JRStatus.pending, none⟩] })

/-- `approveJoinRequest` (groupController): needs the group and a pending
request; pushes the user into members (saving the group) unless already a
member — with no capacity check of any kind — then rewrites the request's
status to approved (only the status: `processedAt` is never assigned) and
pushes the group onto the user's index.  The controller itself never
inspects the caller; authorization lives in the route middleware. -/
def approveJoinRequest (st : St) (gid targetUser : Nat) : Resp × St :=
  match findGroup st gid with
  | none => (⟨404, "Group not found"⟩, st)
  | some g =>
    match st.requests.find? (isPendingFor gid targetUser) with
    | none => (⟨404, "Request not found"⟩, st)
    | some _ =>
      let st1 := if memb targetUser g.members then st
                 else saveGroup st { g with members := g.members ++ [targetUser] }
      let st2 := { st1 with requests :=
        (updateFirst (isPendingFor gid targetUser)
          (fun r => { r with status := JRStatus.approved }) st1.requests) }
      (⟨200, "Join request approved"⟩, userPushGroup st2 targetUser gid)

/-- `declineJoinRequest` (groupController): a single
`findOneAndUpdate(\x7b group, user, status pending \x7d, \x7b status rejected \x7d)`;
again only the status field is written, never `processedAt`. -/
def declineJoinRequest (st : St) (gid targetUser : Nat) : Resp × St :=
  match st.requests.find? (isPendingFor gid targetUser) with
  | none => (⟨404, "Request not found"⟩, st)
  | some _ =>
    (⟨200, "Join request declined"⟩,
      { st with requests :=
        (updateFirst (isPendingFor gid targetUser)
          (fun r => { r with status := JRStatus.rejected }) st.requests) })

/-- `banishUser` (groupController): refuses to banish the owner, then
pulls the target from members and admins and from the user's index.
The controller never inspects the caller; the route middleware does. -/
def banishUser (st : St) (gid targetUser : Nat) : Resp × St :=
  match findGroup st gid with
  | none => (⟨404, "Group not found"⟩, st)
  | some g =>
    if g.owner == targetUser then (⟨400, "Cannot banish group owner"⟩, st)
    else
      let st1 := saveGroup st { g with members := pull targetUser g.members, admins := pull targetUser g.admins }
      (⟨200, "User banished successfully"⟩, userPullGroup st1 targetUser gid)

/-- `addMemberToGroup` (groupController): group and target user must
exist, requester must be owner or admin (401 otherwise), target must not
already be a member, and the JS capacity guard applies (dead, since the
`maxMembers` path does not exist); then the member is pushed and the
target user's `joinedGroups` updated. -/
def addMemberToGroup (st : St) (caller gid targetUser : Nat) : Resp × St :=
  match findGroup st gid with
  | none => (⟨404, "Group not found"⟩, st)
  | some g =>
    match findUser st targetUser with
    | none => (⟨404, "User not found"⟩, st)
    | some _ =>
      if !(g.owner == caller) && !(memb caller g.admins) then
        (⟨401, "Unauthorized: only owner or admin can add members"⟩, st)
      else if memb targetUser g.members then
        (⟨400, "User already a member of the group"⟩, st)
      else if jsCapacityGuard g.members.length g.maxMembers then
        (⟨400, "Group member limit reached"⟩, st)
      else
        let st1 := saveGroup st { g with members := g.members ++ [targetUser] }
        (⟨200, "Member added to group successfully"⟩, userPushGroup st1 targetUser gid)

/-- `removeMember` (groupController). -/
def removeMember (st : St) (caller gid memberId : Nat) : Resp × St :=
  match findGroup st gid with
  | none => (⟨404, "Group not found"⟩, st)
  | some g =>
    if !(g.owner == caller) && !(memb caller g.admins) then
      (⟨403, "Not authorized to remove members"⟩, st)
    else if !memb memberId g.members then (⟨400, "User is not a member of this group"⟩, st)
    else if g.owner == memberId then (⟨400, "Cannot remove the group owner"⟩, st)
    else
      let st1 := saveGroup st { g with members := pull memberId g.members, admins := pull memberId g.admins }
      (⟨200, "Member removed successfully"⟩, userPullGroup st1 memberId gid)

/-- `sendMessage` (messageController, the module that imports Message and
the encryption service): member-gated append of an encrypted message.
The ciphertext and iv produced by the encryption service are taken as
arguments. -/
def sendMessageMsgCtrl (st : St) (caller gid : Nat) (encryptedContent iv : String) : Resp × St :=
  match findGroup st gid with
  | none => (⟨404, "Group not found"⟩, st)
  | some g =>
    if !memb caller g.members then (⟨403, "Not a member of this group"⟩, st)
    else (⟨201, "created"⟩, { st with messages := st.messages ++ [⟨gid, caller, encryptedContent, iv⟩] })

/-- Route `POST /:id/join-requests/:userId/approve`
(`[authMiddleware, checkRole(['owner'])]`). -/
def approveJoinRequestRoute (st : St) (caller gid targetUser : Nat) : Resp × St :=
  withRole ["owner"] st caller gid (approveJoinRequest st gid targetUser)

/-- Route `POST /:id/join-requests/:userId/decline`
(`[authMiddleware, checkRole(['owner'])]`). -/
def declineJoinRequestRoute (st : St) (caller gid targetUser : Nat) : Resp × St :=
  withRole ["owner"] st caller gid (declineJoinRequest st gid targetUser)

/-- Route `POST /:id/banish/:userId` (`checkRole(['owner'])`). -/
def banishUserRoute (st : St) (caller gid targetUser : Nat) : Resp × St :=
  withRole ["owner"] st caller gid (banishUser st gid targetUser)

/-- Route `DELETE /:id` (`checkRole(['owner'])`). -/
def deleteGroupRoute (st : St) (caller gid : Nat) : Resp × St :=
  withRole ["owner"] st caller gid (deleteGroup st caller gid)

/-- Route `POST /:id/transfer` (`checkRole(['owner'])`). -/
def transferOwnershipRoute (st : St) (caller gid newOwnerId : Nat) : Resp × St :=
  withRole ["owner"] st caller gid (transferOwnership st caller gid newOwnerId)

/-- Route `PATCH /:id/members/:userId/role` (`checkRole(['owner','admin'])`). -/
def updateMemberRoleRoute (st : St) (caller gid targetUser : Nat) (role : String) : Resp × St :=
  withRole ["owner", "admin"] st caller gid (updateMemberRole st caller gid targetUser role)

/-- Route `POST /:id/members/:userId` (`checkRole(['owner','admin'])`). -/
def addMemberToGroupRoute (st : St) (caller gid targetUser : Nat) : Resp × St :=
  withRole ["owner", "admin"] st caller gid (addMemberToGroup st caller gid targetUser)

/-- Route `DELETE /:id/members/:userId` (`checkRole(['owner','admin'])`). -/
def removeMemberRoute (st : St) (caller gid memberId : Nat) : Resp × St :=
  withRole ["owner", "admin"] st caller gid (removeMember st caller gid memberId)

/-- Entry of the `discoverGroups` payload: one group after
`.select('-members -admins -encryptionKey -__v')`, plus the computed
`memberCount`.  Since `members` is excluded by the projection,
`group.members?.length || 0` evaluates to 0 on every entry. -/
structure DiscoverEntry where
  gid : Nat
  name : String
  gtype : GType
  description : String
  memberCount : Nat
  deriving DecidableEq, Repr

/-- The case-insensitive name regex `\x7b regex: search, options: 'i' \x7d`
of `discoverGroups`, for plain (non-metacharacter) search strings:
substring match on the lower-cased name. -/
def searchMatches (search : Option String) (name : String) : Bool :=
  match search with
  | none => true
  | some q => decide (q.toLower.toList <:+: name.toLower.toList)

/-- `discoverGroups` (groupController): public groups matching the
search, limited to 20, projected without members, admins or
encryptionKey. -/
def discoverGroups (st : St) (search : Option String) : List DiscoverEntry :=
  ((st.groups.filter (fun g => decide (g.gtype = GType.pub) && searchMatches search g.name)).take 20).map
    (fun g => ⟨g.gid, g.name, g.gtype, g.description, 0⟩)

/-- The `permissions` object of the `getGroupDetails` payload.
`canInvite` reads `group.allowMemberInvites`, a path absent from the
schema, so its JS value reduces to `isOwner || isAdmin`. -/
structure Permissions where
  canPost : Bool
  canInvite : Bool
  canManage : Bool
  deriving DecidableEq, Repr

/-- `userRole` as computed by `getGroupDetails`:
owner, else admin, else member, else none. -/
def roleString (g : Group) (caller : Nat) : String :=
  if g.owner == caller then "owner"
  else if memb caller g.admins then "admin"
  else if memb caller g.members then "member"
  else "none"

/-- The `getGroupDetails` payload: the group document after
`.select('-encryptionKey -__v')` spread into the response, plus the
computed memberCount, userRole, joinRequestStatus and permissions. -/
structure DetailsPayload where
  gid : Nat
  name : String
  gtype : GType
  description : String
  owner : Nat
  members : List Nat
  admins : List Nat
  memberCount : Nat
  userRole : String
  joinRequestStatus : Option JRStatus
  permissions : Permissions
  deriving DecidableEq, Repr

/-- `getGroupDetails` (groupController): 404 when absent, 403 for a
non-member/non-admin/non-owner on a private group, otherwise the payload
above.  `joinRequestStatus` is looked up (any status) only for
non-members of private groups. -/
def getGroupDetails (st : St) (caller gid : Nat) : Except Resp DetailsPayload :=
  match findGroup st gid with
  | none => Except.error ⟨404, "Group not found"⟩
  | some g =>
    if decide (g.gtype = GType.priv) && !memb caller g.members
        && !memb caller g.admins && g.owner != caller then
      Except.error ⟨403, "Not authorized to view this group"⟩
    else
      let isMember := memb caller g.members
      let isAdmin := memb caller g.admins
      let isOwner := g.owner == caller
      let jrs := if !isMember && decide (g.gtype = GType.priv) then
          (st.requests.find? (fun r => r.group == gid && r.user == caller)).map (fun r => r.status)
        else none
      Except.ok
        { gid := g.gid, name := g.name, gtype := g.gtype, description := g.description,
          owner := g.owner, members := g.members, admins := g.admins,
          memberCount := g.members.length,
          userRole := roleString g caller,
          joinRequestStatus := jrs,
          permissions := ⟨isMember, isOwner || isAdmin, isOwner || isAdmin⟩ }

/-- `getUserGroups` (userController): `Group.find(\x7b members: userId \x7d)`
with no field selection — the complete documents, `encryptionKey`
included, are serialized to the caller. -/
def getUserGroups (st : St) (caller : Nat) : List Group :=
  st.groups.filter (fun g => memb caller g.members)

/-- Blanks a group's encryptionKey, keeping every other field. -/
def eraseKey (g : Group) : Group :=
  { g with encryptionKey := "" }

/-- Blanks every group's encryptionKey in the store. -/
def eraseKeys (st : St) : St :=
  { st with groups := st.groups.map eraseKey }

/-- The empty document store. -/
def st0 : St :=
  ⟨[], [], [], []⟩

/-- States reachable from the empty store through the exported
endpoints: user registration, group creation and the group-routes
operations (each behind its route middleware), plus message sending.
`getMessages`, `sendMessage` and `deleteGroup` of the groupController
reference the unbound `Message` identifier and therefore return 500
without touching the store (deleteGroupRoute models this). -/
inductive Reachable : St → Prop
  | init : Reachable st0
  | register (st : St) (uid : Nat) :
      Reachable st → Reachable (registerUser st uid)
  | create (st : St) (caller : Nat) (name : String) (ty : GType) (descr : String)
      (mm : Option Nat) (gid : Nat) (key : String) :
      Reachable st → Reachable (createGroup st caller name ty descr mm gid key).2
  | join (st : St) (caller gid : Nat) :
      Reachable st → Reachable (joinGroup st caller gid).2
  | leave (st : St) (caller gid : Nat) :
      Reachable st → Reachable (leaveGroup st caller gid).2
  | transfer (st : St) (caller gid n : Nat) :
      Reachable st → Reachable (transferOwnershipRoute st caller gid n).2
  | updateRole (st : St) (caller gid u : Nat) (role : String) :
      Reachable st → Reachable (updateMemberRoleRoute st caller gid u role).2
  | requestJoin (st : St) (caller gid : Nat) :
      Reachable st → Reachable (requestJoinPrivateGroup st caller gid).2
  | approve (st : St) (caller gid u : Nat) :
      Reachable st → Reachable (approveJoinRequestRoute st caller gid u).2
  | decline (st : St) (caller gid u : Nat) :
      Reachable st → Reachable (declineJoinRequestRoute st caller gid u).2
  | banish (st : St) (caller gid u : Nat) :
      Reachable st → Reachable (banishUserRoute st caller gid u).2
  | deleteG (st : St) (caller gid : Nat) :
      Reachable st → Reachable (deleteGroupRoute st caller gid).2
  | addMember (st : St) (caller gid u : Nat) :
      Reachable st → Reachable (addMemberToGroupRoute st caller gid u).2
  | removeM (st : St) (caller gid u : Nat) :
      Reachable st → Reachable (removeMemberRoute st caller gid u).2
  | sendMsg (st : St) (caller gid : Nat) (c iv : String) :
      Reachable st → Reachable (sendMessageMsgCtrl st caller gid c iv).2

/-- The per-group structural invariant of the data model: the owner is a
member, the owner is an admin, and every admin is a member. -/
def GInv (g : Group) : Prop :=
  g.owner ∈ g.members ∧ g.owner ∈ g.admins ∧ ∀ x ∈ g.admins, x ∈ g.members

/-- The store-wide invariant: every group document satisfies `GInv`. -/
def InvSt (st : St) : Prop :=
  ∀ g ∈ st.groups, GInv g

/-!
Encryption service (`encryptionService.js`): `crypto.createCipheriv`
with algorithm 'aes-256-cbc' and default auto-padding, i.e. CBC mode
chaining over the AES-256 block permutation with PKCS#7 padding applied
by `cipher.final`.  Messages, keys and ivs are byte lists; the utf8 and
hex codecs applied by `cipher.update(text, 'utf8', 'hex')` and friends
are bijective framings performed by the runtime and are not modelled.
The AES block permutation itself lives in OpenSSL, outside this
repository: it enters as a parameter pair `E`/`D` (encryption and
decryption under the fixed 256-bit key), about which a block cipher
guarantees exactly that `D` inverts `E` on 16-byte blocks and that
blocks keep their size. -/

/-- Byte-wise xor of two blocks, the CBC chaining step. -/
def xorBytes (a b : List Nat) : List Nat :=
  List.zipWith Nat.xor a b

/-- Splits a byte string into the 16-byte blocks the cipher consumes. -/
def chunks16 (l : List Nat) : List (List Nat) :=
  if h : l = [] then []
  else l.take 16 :: chunks16 (l.drop 16)
termination_by l.length
decreasing_by
  simp only [List.length_drop]
  have hl : l.length ≠ 0 := fun h0 => h (List.length_eq_zero.mp h0)
  omega

/-- PKCS#7 padding as applied by `cipher.final`: k bytes of value k,
with k between 1 and 16 bringing the length to a multiple of 16. -/
def pkcs7pad (m : List Nat) : List Nat :=
  let k := 16 - m.length % 16
  m ++ List.replicate k k

/-- PKCS#7 unpadding as applied by `decipher.final`: reads the last
byte, validates it and the padding run, and strips it; an invalid
padding is a decrypt failure (`none` — the thrown bad-decrypt error). -/
def pkcs7unpad (l : List Nat) : Option (List Nat) :=
  match l.getLast? with
  | none => none
  | some k =>
    if 1 ≤ k ∧ k ≤ 16 ∧ k ≤ l.length ∧ (l.drop (l.length - k)).all (fun b => b == k)
    then some (l.take (l.length - k))
    else none

/-- CBC encryption of a block sequence: each plaintext block is xored
with the previous ciphertext block (initially the iv) and enciphered. -/
def cbcEncBlocks (E : List Nat → List Nat) (iv : List Nat) :
    List (List Nat) → List (List Nat)
  | [] => []
  | b :: bs =>
    let c := E (xorBytes b iv)
    c :: cbcEncBlocks E c bs

/-- CBC decryption of a block sequence: each ciphertext block is
deciphered and xored with the previous ciphertext block. -/
def cbcDecBlocks (D : List Nat → List Nat) (iv : List Nat) :
    List (List Nat) → List (List Nat)
  | [] => []
  | c :: cs => xorBytes (D c) iv :: cbcDecBlocks D c cs

/-- `encrypt(text, keyBase64)` for a given iv (the implementation draws
it from `crypto.randomBytes(16)`): pad, chunk, CBC-chain, concatenate. -/
def encrypt (E : List Nat → List Nat) (m iv : List Nat) : List Nat :=
  (cbcEncBlocks E iv (chunks16 (pkcs7pad m))).flatten

/-- `decrypt(encryptedData, keyBase64, ivHex)`: chunk, CBC-decrypt,
unpad; `none` is the explicit bad-decrypt failure. -/
def decrypt (D : List Nat → List Nat) (c iv : List Nat) : Option (List Nat) :=
  pkcs7unpad (cbcDecBlocks D iv (chunks16 c)).flatten

/-- Store used as a concrete example below: a private group owned by
user 1 with admin 2 and member 3, user 4 holding a pending request. -/
def stW1 : St :=
  ⟨[⟨1, "yoga", GType.priv, "", 1, [1, 2, 3], [1, 2], none, "k"⟩],
   [⟨1, 4, JRStatus.pending, none⟩], [⟨1, [1]⟩, ⟨2, [1]⟩, ⟨3, [1]⟩, ⟨4, []⟩], []⟩

/-- The group document of `stW1`. -/
def gW1 : Group :=
  ⟨1, "yoga", GType.priv, "", 1, [1, 2, 3], [1, 2], none, "k"⟩

/-- Store with a populated group, a request and a message, used to
exercise `deleteGroupRoute` on the owner path. -/
def stW5 : St :=
  ⟨[⟨1, "g", GType.pub, "", 1, [1, 2], [1], none, "k"⟩],
   [⟨1, 3, JRStatus.pending, none⟩], [⟨1, [1]⟩, ⟨2, [1]⟩], [⟨1, 1, "c", "iv"⟩]⟩

/-- Store holding a public group whose document carries the secret key
"k-secret", with member 2, used to inspect `getUserGroups` output. -/
def stC3 : St :=
  ⟨[⟨1, "g", GType.pub, "", 1, [1, 2], [1], none, "k-secret"⟩], [], [⟨1, [1]⟩, ⟨2, [1]⟩], []⟩

/-- Store obtained by creating a public group through `createGroup` with
a requested maxMembers of 1. -/
def stC2 : St :=
  (createGroup st0 1 "yoga" GType.pub "" (some 1) 1 "k").2

/-- Hypothetical store whose group document carries `maxMembers = some 1`
and is already at capacity, with a pending request from user 2. -/
def stC2full : St :=
  ⟨[⟨1, "p", GType.priv, "", 1, [1], [1], some 1, "k"⟩],
   [⟨1, 2, JRStatus.pending, none⟩], [⟨1, [1]⟩, ⟨2, []⟩], []⟩

/-- Store with a private group and a pending request from user 2, used
to watch `processedAt` across an approval. -/
def stC9 : St :=
  ⟨[⟨1, "p", GType.priv, "", 1, [1], [1], none, "k"⟩],
   [⟨1, 2, JRStatus.pending, none⟩], [⟨1, [1]⟩, ⟨2, []⟩], []⟩

/-- Reachable store: a private group created by user 1. -/
def stP1 : St :=
  (createGroup st0 1 "p" GType.priv "" none 1 "k").2

/-- Reachable store: `stP1` after user 2 submitted a join request. -/
def stP2 : St :=
  (requestJoinPrivateGroup stP1 2 1).2

/-- Reachable store: a public group created by user 1. -/
def stW6 : St :=
  (createGroup st0 1 "a" GType.pub "" none 10 "k").2

end LYoga

namespace LYoga

theorem memb_iff {x : Nat} {l : List Nat} : memb x l = true ↔ x ∈ l := by
  simp [memb, List.contains, List.elem_iff]

theorem memb_mem {x : Nat} {l : List Nat} (h : memb x l = true) : x ∈ l :=
  memb_iff.mp h

theorem memb_false {x : Nat} {l : List Nat} (h : memb x l = false) : x ∉ l := by
  intro hx
  rw [memb_iff.mpr hx] at h
  cases h

theorem mem_pull {y x : Nat} {l : List Nat} : y ∈ pull x l ↔ y ∈ l ∧ y ≠ x := by
  simp [pull, List.mem_filter]

theorem mem_pushIfAbsent_self (x : Nat) (l : List Nat) : x ∈ pushIfAbsent x l := by
  unfold pushIfAbsent
  split
  · exact memb_mem ‹_›
  · simp

theorem subset_pushIfAbsent (x : Nat) {l : List Nat} {y : Nat} (hy : y ∈ l) :
    y ∈ pushIfAbsent x l := by
  unfold pushIfAbsent
  split
  · exact hy
  · simp [hy]

theorem mem_pushIfAbsent {y x : Nat} {l : List Nat} (h : y ∈ pushIfAbsent x l) :
    y ∈ l ∨ y = x := by
  unfold pushIfAbsent at h
  split at h
  · exact Or.inl h
  · simpa using h

theorem findGroup_mem {st : St} {gid : Nat} {g : Group} (h : findGroup st gid = some g) :
    g ∈ st.groups :=
  List.mem_of_find?_eq_some h

theorem GInv_preSave {g : Group} (hA : ∀ x ∈ g.admins, x ∈ g.members) : GInv (preSave g) := by
  refine ⟨mem_pushIfAbsent_self _ _, mem_pushIfAbsent_self _ _, ?_⟩
  intro x hx
  rcases mem_pushIfAbsent hx with hx' | rfl
  · exact subset_pushIfAbsent _ (hA x hx')
  · exact mem_pushIfAbsent_self _ _

theorem invSt_saveGroup {st : St} {g : Group} (h : InvSt st)
    (hA : ∀ x ∈ g.admins, x ∈ g.members) : InvSt (saveGroup st g) := by
  intro g' hg'
  simp only [saveGroup, List.mem_map] at hg'
  obtain ⟨h0, hh0, heq⟩ := hg'
  by_cases hid : (h0.gid == g.gid) = true
  · rw [← heq, if_pos hid]
    exact GInv_preSave hA
  · rw [← heq, if_neg hid]
    exact h h0 hh0

theorem invSt_userPushGroup {st : St} {u gid : Nat} (h : InvSt st) :
    InvSt (userPushGroup st u gid) :=
  fun g hg => h g hg

theorem invSt_userPullGroup {st : St} {u gid : Nat} (h : InvSt st) :
    InvSt (userPullGroup st u gid) :=
  fun g hg => h g hg

theorem admins_subset_append {g : Group} (hGI : GInv g) (u : Nat) :
    ∀ x ∈ g.admins, x ∈ g.members ++ [u] :=
  fun x hx => List.mem_append_left _ (hGI.2.2 x hx)

theorem admins_subset_pull {g : Group} (hGI : GInv g) (u : Nat) :
    ∀ x ∈ pull u g.admins, x ∈ pull u g.members := by
  intro x hx
  rcases mem_pull.mp hx with ⟨hx1, hx2⟩
  exact mem_pull.mpr ⟨hGI.2.2 x hx1, hx2⟩

theorem invSt_withRole (roles : List String) (st : St) (c gid : Nat) (k : Resp × St)
    (h : InvSt st) (hk : InvSt k.2) : InvSt (withRole roles st c gid k).2 := by
  unfold withRole
  cases checkRole roles st c gid with
  | some r => exact h
  | none => exact hk

theorem invSt_registerUser {st : St} {u : Nat} (h : InvSt st) : InvSt (registerUser st u) :=
  fun g hg => h g hg

theorem invSt_createGroup (st : St) (c : Nat) (name : String) (ty : GType) (d : String)
    (mm : Option Nat) (gid : Nat) (key : String) (h : InvSt st) :
    InvSt (createGroup st c name ty d mm gid key).2 := by
  unfold createGroup
  split
  · exact h
  · intro g' hg'
    rcases List.mem_append.mp hg' with hg' | hg'
    · exact h g' hg'
    · rcases List.mem_singleton.mp hg' with rfl
      exact GInv_preSave (by intro x hx; simpa using hx)

theorem invSt_joinGroup (st : St) (c gid : Nat) (h : InvSt st) :
    InvSt (joinGroup st c gid).2 := by
  cases hg : findGroup st gid with
  | none => simp only [joinGroup, hg]; exact h
  | some g =>
    have hGI := h g (findGroup_mem hg)
    simp only [joinGroup, hg]
    split
    · exact h
    · split
      · exact h
      · split
        · exact invSt_userPushGroup (invSt_saveGroup h (admins_subset_append hGI c))
        · split
          · exact h
          · exact fun g' hg' => h g' hg'

theorem invSt_leaveGroup (st : St) (c gid : Nat) (h : InvSt st) :
    InvSt (leaveGroup st c gid).2 := by
  cases hg : findGroup st gid with
  | none => simp only [leaveGroup, hg]; exact h
  | some g =>
    have hGI := h g (findGroup_mem hg)
    simp only [leaveGroup, hg]
    split
    · exact h
    · split
      · exact h
      · exact invSt_userPullGroup (invSt_saveGroup h (admins_subset_pull hGI c))

theorem invSt_transferOwnership (st : St) (c gid n : Nat) (h : InvSt st) :
    InvSt (transferOwnership st c gid n).2 := by
  cases hg : findGroup st gid with
  | none => simp only [transferOwnership, hg]; exact h
  | some g =>
    have hGI := h g (findGroup_mem hg)
    simp only [transferOwnership, hg]
    split
    · exact h
    · cases hu : findUser st n with
      | none => simp only [hu]; exact h
      | some u =>
        simp only [hu]
        split
        · exact h
        · refine invSt_saveGroup h ?_
          intro x hx
          rcases mem_pushIfAbsent hx with hx' | rfl
          · exact subset_pushIfAbsent _ (hGI.2.2 x hx')
          · exact mem_pushIfAbsent_self _ _

theorem invSt_updateMemberRole (st : St) (c gid u : Nat) (role : String) (h : InvSt st) :
    InvSt (updateMemberRole st c gid u role).2 := by
  cases hg : findGroup st gid with
  | none => simp only [updateMemberRole, hg]; exact h
  | some g =>
    have hGI := h g (findGroup_mem hg)
    simp only [updateMemberRole, hg]
    split
    · exact h
    · cases hu : findUser st u with
      | none => simp only [hu]; exact h
      | some _ =>
        simp only [hu]
        split
        · exact h
        · next hmem =>
          have hum : u ∈ g.members := by
            cases hb : memb u g.members with
            | false => exact absurd (by simp [hb]) hmem
            | true => exact memb_mem hb
          split
          · refine invSt_saveGroup h ?_
            intro x hx
            rcases mem_pushIfAbsent hx with hx' | rfl
            · exact hGI.2.2 x hx'
            · exact hum
          · split
            · split
              · exact h
              · refine invSt_saveGroup h ?_
                intro x hx
                exact hGI.2.2 x (mem_pull.mp hx).1
            · exact h

theorem invSt_requestJoinPrivateGroup (st : St) (c gid : Nat) (h : InvSt st) :
    InvSt (requestJoinPrivateGroup st c gid).2 := by
  cases hg : findGroup st gid with
  | none => simp only [requestJoinPrivateGroup, hg]; exact h
  | some g =>
    simp only [requestJoinPrivateGroup, hg]
    split
    · exact h
    · split
      · exact h
      · split
        · exact h
        · exact fun g' hg' => h g' hg'

theorem invSt_approveJoinRequest (st : St) (gid u : Nat) (h : InvSt st) :
    InvSt (approveJoinRequest st gid u).2 := by
  cases hg : findGroup st gid with
  | none => simp only [approveJoinRequest, hg]; exact h
  | some g =>
    have hGI := h g (findGroup_mem hg)
    simp only [approveJoinRequest, hg]
    cases hr : st.requests.find? (isPendingFor gid u) with
    | none => simp only [hr]; exact h
    | some r =>
      simp only [hr]
      refine invSt_userPushGroup (fun g' hg' => ?_)
      have h1 : InvSt (if memb u g.members then st
          else saveGroup st { g with members := g.members ++ [u] }) := by
        split
        · exact h
        · exact invSt_saveGroup h (admins_subset_append hGI u)
      exact h1 g' hg'

theorem invSt_declineJoinRequest (st : St) (gid u : Nat) (h : InvSt st) :
    InvSt (declineJoinRequest st gid u).2 := by
  cases hr : st.requests.find? (isPendingFor gid u) with
  | none => simp only [declineJoinRequest, hr]; exact h
  | some r =>
    simp only [declineJoinRequest, hr]
    exact fun g' hg' => h g' hg'

theorem invSt_banishUser (st : St) (gid u : Nat) (h : InvSt st) :
    InvSt (banishUser st gid u).2 := by
  cases hg : findGroup st gid with
  | none => simp only [banishUser, hg]; exact h
  | some g =>
    have hGI := h g (findGroup_mem hg)
    simp only [banishUser, hg]
    split
    · exact h
    · exact invSt_userPullGroup (invSt_saveGroup h (admins_subset_pull hGI u))

theorem invSt_deleteGroup (st : St) (c gid : Nat) (h : InvSt st) :
    InvSt (deleteGroup st c gid).2 := by
  cases hg : findGroup st gid with
  | none => simp only [deleteGroup, hg]; exact h
  | some g =>
    simp only [deleteGroup, hg]
    split <;> exact h

theorem invSt_addMemberToGroup (st : St) (c gid u : Nat) (h : InvSt st) :
    InvSt (addMemberToGroup st c gid u).2 := by
  cases hg : findGroup st gid with
  | none => simp only [addMemberToGroup, hg]; exact h
  | some g =>
    have hGI := h g (findGroup_mem hg)
    simp only [addMemberToGroup, hg]
    cases hu : findUser st u with
    | none => simp only [hu]; exact h
    | some _ =>
      simp only [hu]
      split
      · exact h
      · split
        · exact h
        · split
          · exact h
          · exact invSt_userPushGroup (invSt_saveGroup h (admins_subset_append hGI u))

theorem invSt_removeMember (st : St) (c gid u : Nat) (h : InvSt st) :
    InvSt (removeMember st c gid u).2 := by
  cases hg : findGroup st gid with
  | none => simp only [removeMember, hg]; exact h
  | some g =>
    have hGI := h g (findGroup_mem hg)
    simp only [removeMember, hg]
    split
    · exact h
    · split
      · exact h
      · split
        · exact h
        · exact invSt_userPullGroup (invSt_saveGroup h (admins_subset_pull hGI u))

theorem invSt_sendMessageMsgCtrl (st : St) (c gid : Nat) (m iv : String) (h : InvSt st) :
    InvSt (sendMessageMsgCtrl st c gid m iv).2 := by
  cases hg : findGroup st gid with
  | none => simp only [sendMessageMsgCtrl, hg]; exact h
  | some g =>
    simp only [sendMessageMsgCtrl, hg]
    split
    · exact h
    · exact fun g' hg' => h g' hg'

theorem invSt_reachable {st : St} (h : Reachable st) : InvSt st := by
  induction h with
  | init => intro g hg; cases hg
  | register st u _ ih => exact invSt_registerUser ih
  | create st c name ty d mm gid key _ ih => exact invSt_createGroup st c name ty d mm gid key ih
  | join st c gid _ ih => exact invSt_joinGroup st c gid ih
  | leave st c gid _ ih => exact invSt_leaveGroup st c gid ih
  | transfer st c gid n _ ih =>
    exact invSt_withRole _ st c gid _ ih (invSt_transferOwnership st c gid n ih)
  | updateRole st c gid u role _ ih =>
    exact invSt_withRole _ st c gid _ ih (invSt_updateMemberRole st c gid u role ih)
  | requestJoin st c gid _ ih => exact invSt_requestJoinPrivateGroup st c gid ih
  | approve st c gid u _ ih =>
    exact invSt_withRole _ st c gid _ ih (invSt_approveJoinRequest st gid u ih)
  | decline st c gid u _ ih =>
    exact invSt_withRole _ st c gid _ ih (invSt_declineJoinRequest st gid u ih)
  | banish st c gid u _ ih =>
    exact invSt_withRole _ st c gid _ ih (invSt_banishUser st gid u ih)
  | deleteG st c gid _ ih =>
    exact invSt_withRole _ st c gid _ ih (invSt_deleteGroup st c gid ih)
  | addMember st c gid u _ ih =>
    exact invSt_withRole _ st c gid _ ih (invSt_addMemberToGroup st c gid u ih)
  | removeM st c gid u _ ih =>
    exact invSt_withRole _ st c gid _ ih (invSt_removeMember st c gid u ih)
  | sendMsg st c gid m iv _ ih => exact invSt_sendMessageMsgCtrl st c gid m iv ih

/-- C6: for every reachable store — that is, after any sequence of
operations starting from the empty store — every group document
satisfies owner ∈ members, owner ∈ admins and admins ⊆ members. -/
theorem reachable_group_invariants (st : St) (h : Reachable st) :
    ∀ g ∈ st.groups,
      g.owner ∈ g.members ∧ g.owner ∈ g.admins ∧ ∀ x ∈ g.admins, x ∈ g.members :=
  invSt_reachable h

/-- Witness: the invariant holds concretely in the store reached by one
`createGroup`. -/
theorem reachable_group_invariants_witness :
    Reachable stW6 ∧ ∀ g ∈ stW6.groups,
      g.owner ∈ g.members ∧ g.owner ∈ g.admins ∧ ∀ x ∈ g.admins, x ∈ g.members :=
  ⟨Reachable.create st0 1 "a" GType.pub "" none 10 "k" Reachable.init,
   reachable_group_invariants stW6
     (Reachable.create st0 1 "a" GType.pub "" none 10 "k" Reachable.init)⟩

theorem pend_le_updateFirst (l : List JoinRequest) (p q : JoinRequest → Bool)
    (f : JoinRequest → JoinRequest) (hf : ∀ r, q (f r) = false) :
    ((updateFirst p f l).filter q).length ≤ (l.filter q).length := by
  induction l with
  | nil => simp [updateFirst]
  | cons r rs ih =>
    simp only [updateFirst]
    split
    · simp only [List.filter_cons, hf r]
      rw [if_neg (by simp)]
      by_cases hq : q r = true
      · simp only [if_pos hq, List.length_cons]
        exact Nat.le_succ _
      · simp only [if_neg hq]
        exact Nat.le_refl _
    · simp only [List.filter_cons]
      by_cases hq : q r = true
      · simp only [if_pos hq, List.length_cons]
        exact Nat.succ_le_succ ih
      · simp only [if_neg hq]
        exact ih

theorem pendInv_of_requests_eq {st st' : St} (he : st'.requests = st.requests)
    (h : ∀ a b, pendingCount st a b ≤ 1) : ∀ a b, pendingCount st' a b ≤ 1 := by
  intro a b
  rw [pendingCount, he]
  exact h a b

theorem pendingCount_append_pending (st : St) (gid c : Nat)
    (hp : ∀ r ∈ st.requests, isPendingFor gid c r = false)
    (h : ∀ a b, pendingCount st a b ≤ 1) (a b : Nat) :
    ((st.requests ++ [(⟨gid, c, JRStatus.pending, none⟩ : JoinRequest)]).filter
      (isPendingFor a b)).length ≤ 1 := by
  rw [List.filter_append]
  by_cases hab : a = gid ∧ b = c
  · obtain ⟨rfl, rfl⟩ := hab
    have h0 : st.requests.filter (isPendingFor a b) = [] := by
      rw [List.filter_eq_nil_iff]
      intro r hr
      simp [hp r hr]
    simp [h0, List.filter, isPendingFor]
  · have hlast : isPendingFor a b (⟨gid, c, JRStatus.pending, none⟩ : JoinRequest) = false := by
      rcases hb : isPendingFor a b (⟨gid, c, JRStatus.pending, none⟩ : JoinRequest) with _ | _
      · rfl
      · exfalso
        have hb' := hb
        simp only [isPendingFor, Bool.and_eq_true, beq_iff_eq] at hb'
        exact hab ⟨hb'.1.1.symm, hb'.1.2.symm⟩
    simp only [List.filter_cons, hlast]
    rw [if_neg (by simp)]
    simpa using h a b

theorem any_isPendingFor_of_le (st : St) (gid c : Nat) (h : 1 ≤ pendingCount st gid c) :
    st.requests.any (isPendingFor gid c) = true := by
  rw [pendingCount] at h
  rcases hl : st.requests.filter (isPendingFor gid c) with _ | ⟨r, rs⟩
  · rw [hl] at h
    simp at h
  · have hr : r ∈ st.requests.filter (isPendingFor gid c) := by
      rw [hl]
      exact List.mem_cons_self r rs
    have hm := List.mem_filter.mp hr
    exact List.any_eq_true.mpr ⟨r, hm.1, hm.2⟩

theorem pendInv_withRole (roles : List String) (st : St) (c gid : Nat) (k : Resp × St)
    (h : ∀ a b, pendingCount st a b ≤ 1) (hk : ∀ a b, pendingCount k.2 a b ≤ 1) :
    ∀ a b, pendingCount (withRole roles st c gid k).2 a b ≤ 1 := by
  unfold withRole
  cases checkRole roles st c gid with
  | some r => exact h
  | none => exact hk

theorem createGroup_requests (st : St) (c : Nat) (name : String) (ty : GType) (d : String)
    (mm : Option Nat) (gid : Nat) (key : String) :
    (createGroup st c name ty d mm gid key).2.requests = st.requests := by
  unfold createGroup
  split <;> rfl

theorem leaveGroup_requests (st : St) (c gid : Nat) :
    (leaveGroup st c gid).2.requests = st.requests := by
  unfold leaveGroup
  repeat' split
  all_goals rfl

theorem transferOwnership_requests (st : St) (c gid n : Nat) :
    (transferOwnership st c gid n).2.requests = st.requests := by
  unfold transferOwnership
  repeat' split
  all_goals rfl

theorem updateMemberRole_requests (st : St) (c gid u : Nat) (role : String) :
    (updateMemberRole st c gid u role).2.requests = st.requests := by
  unfold updateMemberRole
  repeat' split
  all_goals rfl

theorem banishUser_requests (st : St) (gid u : Nat) :
    (banishUser st gid u).2.requests = st.requests := by
  unfold banishUser
  repeat' split
  all_goals rfl

theorem deleteGroup_requests (st : St) (c gid : Nat) :
    (deleteGroup st c gid).2.requests = st.requests := by
  unfold deleteGroup
  repeat' split
  all_goals rfl

theorem addMemberToGroup_requests (st : St) (c gid u : Nat) :
    (addMemberToGroup st c gid u).2.requests = st.requests := by
  unfold addMemberToGroup
  repeat' split
  all_goals rfl

theorem removeMember_requests (st : St) (c gid u : Nat) :
    (removeMember st c gid u).2.requests = st.requests := by
  unfold removeMember
  repeat' split
  all_goals rfl

theorem sendMessageMsgCtrl_requests (st : St) (c gid : Nat) (m iv : String) :
    (sendMessageMsgCtrl st c gid m iv).2.requests = st.requests := by
  unfold sendMessageMsgCtrl
  repeat' split
  all_goals rfl

theorem pendInv_joinGroup (st : St) (c gid : Nat) (h : ∀ a b, pendingCount st a b ≤ 1) :
    ∀ a b, pendingCount (joinGroup st c gid).2 a b ≤ 1 := by
  cases hg : findGroup st gid with
  | none => simp only [joinGroup, hg]; exact h
  | some g =>
    simp only [joinGroup, hg]
    split
    · exact h
    · split
      · exact h
      · split
        · exact h
        · split
          · exact h
          · next hany =>
            intro a b
            rw [pendingCount]
            refine pendingCount_append_pending st gid c ?_ h a b
            intro r hr
            rcases hb : isPendingFor gid c r with _ | _
            · rfl
            · exfalso
              have hb' := hb
              simp only [isPendingFor, Bool.and_eq_true, beq_iff_eq] at hb'
              refine hany (List.any_eq_true.mpr ⟨r, hr, ?_⟩)
              simp only [Bool.and_eq_true, beq_iff_eq]
              tauto

theorem pendInv_requestJoinPrivateGroup (st : St) (c gid : Nat)
    (h : ∀ a b, pendingCount st a b ≤ 1) :
    ∀ a b, pendingCount (requestJoinPrivateGroup st c gid).2 a b ≤ 1 := by
  cases hg : findGroup st gid with
  | none => simp only [requestJoinPrivateGroup, hg]; exact h
  | some g =>
    simp only [requestJoinPrivateGroup, hg]
    split
    · exact h
    · split
      · exact h
      · split
        · exact h
        · next hany =>
          intro a b
          rw [pendingCount]
          refine pendingCount_append_pending st gid c ?_ h a b
          intro r hr
          rcases hb : isPendingFor gid c r with _ | _
          · rfl
          · exact absurd (List.any_eq_true.mpr ⟨r, hr, hb⟩) hany

theorem pendInv_approveJoinRequest (st : St) (gid u : Nat)
    (h : ∀ a b, pendingCount st a b ≤ 1) :
    ∀ a b, pendingCount (approveJoinRequest st gid u).2 a b ≤ 1 := by
  cases hg : findGroup st gid with
  | none => simp only [approveJoinRequest, hg]; exact h
  | some g =>
    simp only [approveJoinRequest, hg]
    cases hr : st.requests.find? (isPendingFor gid u) with
    | none => simp only [hr]; exact h
    | some r =>
      simp only [hr]
      intro a b
      rw [pendingCount]
      have h1 : (if memb u g.members then st
          else saveGroup st { g with members := g.members ++ [u] }).requests = st.requests := by
        split <;> rfl
      rw [h1]
      refine le_trans (pend_le_updateFirst _ _ _ _ ?_) (h a b)
      intro r'
      simp [isPendingFor]

theorem pendInv_declineJoinRequest (st : St) (gid u : Nat)
    (h : ∀ a b, pendingCount st a b ≤ 1) :
    ∀ a b, pendingCount (declineJoinRequest st gid u).2 a b ≤ 1 := by
  cases hr : st.requests.find? (isPendingFor gid u) with
  | none => simp only [declineJoinRequest, hr]; exact h
  | some r =>
    simp only [declineJoinRequest, hr]
    intro a b
    rw [pendingCount]
    refine le_trans (pend_le_updateFirst _ _ _ _ ?_) (h a b)
    intro r'
    simp [isPendingFor]

theorem pendInv_reachable {st : St} (h : Reachable st) :
    ∀ a b, pendingCount st a b ≤ 1 := by
  induction h with
  | init => intro a b; rw [pendingCount]; simp [st0]
  | register st u _ ih => exact pendInv_of_requests_eq rfl ih
  | create st c name ty d mm gid key _ ih =>
    exact pendInv_of_requests_eq (createGroup_requests st c name ty d mm gid key) ih
  | join st c gid _ ih => exact pendInv_joinGroup st c gid ih
  | leave st c gid _ ih => exact pendInv_of_requests_eq (leaveGroup_requests st c gid) ih
  | transfer st c gid n _ ih =>
    exact pendInv_withRole _ st c gid _ ih
      (pendInv_of_requests_eq (transferOwnership_requests st c gid n) ih)
  | updateRole st c gid u role _ ih =>
    exact pendInv_withRole _ st c gid _ ih
      (pendInv_of_requests_eq (updateMemberRole_requests st c gid u role) ih)
  | requestJoin st c gid _ ih => exact pendInv_requestJoinPrivateGroup st c gid ih
  | approve st c gid u _ ih =>
    exact pendInv_withRole _ st c gid _ ih (pendInv_approveJoinRequest st gid u ih)
  | decline st c gid u _ ih =>
    exact pendInv_withRole _ st c gid _ ih (pendInv_declineJoinRequest st gid u ih)
  | banish st c gid u _ ih =>
    exact pendInv_withRole _ st c gid _ ih
      (pendInv_of_requests_eq (banishUser_requests st gid u) ih)
  | deleteG st c gid _ ih =>
    exact pendInv_withRole _ st c gid _ ih
      (pendInv_of_requests_eq (deleteGroup_requests st c gid) ih)
  | addMember st c gid u _ ih =>
    exact pendInv_withRole _ st c gid _ ih
      (pendInv_of_requests_eq (addMemberToGroup_requests st c gid u) ih)
  | removeM st c gid u _ ih =>
    exact pendInv_withRole _ st c gid _ ih
      (pendInv_of_requests_eq (removeMember_requests st c gid u) ih)
  | sendMsg st c gid m iv _ ih =>
    exact pendInv_of_requests_eq (sendMessageMsgCtrl_requests st c gid m iv) ih

/-- C7: in every reachable store each (group, user) pair has at most one
pending JoinRequest, and a submission (`requestJoinPrivateGroup`) made
while a pending record exists for the pair fails with 400 and leaves the
store unchanged instead of creating a second pending record. -/
theorem pending_unique_reachable (st : St) (h : Reachable st) :
    (∀ gid uid, pendingCount st gid uid ≤ 1) ∧
    (∀ caller gid g, findGroup st gid = some g → g.gtype = GType.priv →
      memb caller g.members = false → 1 ≤ pendingCount st gid caller →
      requestJoinPrivateGroup st caller gid = (⟨400, "Join request already pending"⟩, st)) := by
  refine ⟨pendInv_reachable h, ?_⟩
  intro caller gid g hg hpriv hmem hpend
  simp only [requestJoinPrivateGroup, hg]
  rw [if_neg (by simp [hpriv])]
  rw [if_neg (by simp [hmem])]
  rw [if_pos (any_isPendingFor_of_le st gid caller hpend)]

/-- Witness: in the reachable store `stP2` (private group created, one
request submitted) the bound holds, and the pending request for the
pair (1, 2) makes a second submission fail with 400. -/
theorem pending_unique_reachable_witness :
    Reachable stP2 ∧
    ((∀ gid uid, pendingCount stP2 gid uid ≤ 1) ∧
     (∀ caller gid g, findGroup stP2 gid = some g → g.gtype = GType.priv →
       memb caller g.members = false → 1 ≤ pendingCount stP2 gid caller →
       requestJoinPrivateGroup stP2 caller gid = (⟨400, "Join request already pending"⟩, stP2))) :=
  ⟨Reachable.requestJoin stP1 2 1
     (Reachable.create st0 1 "p" GType.priv "" none 1 "k" Reachable.init),
   pending_unique_reachable stP2
     (Reachable.requestJoin stP1 2 1
       (Reachable.create st0 1 "p" GType.priv "" none 1 "k" Reachable.init))⟩

theorem owner_beq_false_of_roleString {g : Group} {c : Nat} (h : roleString g c ≠ "owner") :
    (g.owner == c) = false := by
  rcases hb : (g.owner == c) with _ | _
  · rfl
  · exfalso
    apply h
    unfold roleString
    rw [if_pos hb]

theorem checkRole_owner_rejects {st : St} {caller gid : Nat} {g : Group}
    (hg : findGroup st gid = some g) (hb : (g.owner == caller) = false) :
    checkRole ["owner"] st caller gid = some ⟨403, "Insufficient permissions"⟩ := by
  simp [checkRole, hg, hb]

/-- C1: through their routes, approve and decline are gated by
`checkRole(['owner'])`: on an existing group holding a pending request, a
caller whose computed role is admin, member or none receives 403
"Insufficient permissions" and the store — the request's status and the
group's membership included — is unchanged. -/
theorem approve_decline_owner_only (st : St) (caller gid target : Nat) (g : Group)
    (hg : findGroup st gid = some g) (hrole : roleString g caller ≠ "owner")
    (hpend : 1 ≤ pendingCount st gid target) :
    approveJoinRequestRoute st caller gid target = (⟨403, "Insufficient permissions"⟩, st) ∧
    declineJoinRequestRoute st caller gid target = (⟨403, "Insufficient permissions"⟩, st) := by
  have hcr := checkRole_owner_rejects hg (owner_beq_false_of_roleString hrole)
  constructor
  · simp [approveJoinRequestRoute, withRole, hcr]
  · simp [declineJoinRequestRoute, withRole, hcr]

/-- Witness: in `stW1` the admin (user 2) can neither approve nor
decline the pending request of user 4. -/
theorem approve_decline_owner_only_witness :
    findGroup stW1 1 = some gW1 ∧ roleString gW1 2 ≠ "owner" ∧
    1 ≤ pendingCount stW1 1 4 ∧
    (approveJoinRequestRoute stW1 2 1 4 = (⟨403, "Insufficient permissions"⟩, stW1) ∧
     declineJoinRequestRoute stW1 2 1 4 = (⟨403, "Insufficient permissions"⟩, stW1)) :=
  ⟨rfl, by decide, by decide,
   approve_decline_owner_only stW1 2 1 4 gW1 rfl (by decide) (by decide)⟩

/-- C4: the banish route is gated by `checkRole(['owner'])`: on an
existing group, a caller whose computed role is admin, member or none
receives 403 and the store — members and admins included — is
unchanged. -/
theorem banish_owner_only (st : St) (caller gid target : Nat) (g : Group)
    (hg : findGroup st gid = some g) (hrole : roleString g caller ≠ "owner") :
    banishUserRoute st caller gid target = (⟨403, "Insufficient permissions"⟩, st) := by
  have hcr := checkRole_owner_rejects hg (owner_beq_false_of_roleString hrole)
  simp [banishUserRoute, withRole, hcr]

/-- Witness: in `stW1` the admin (user 2) cannot banish member 3. -/
theorem banish_owner_only_witness :
    findGroup stW1 1 = some gW1 ∧ roleString gW1 2 ≠ "owner" ∧
    banishUserRoute stW1 2 1 3 = (⟨403, "Insufficient permissions"⟩, stW1) :=
  ⟨rfl, by decide, banish_owner_only stW1 2 1 3 gW1 rfl (by decide)⟩

/-- C5: concrete evidence of the broken delete path.  A non-owner is
rejected with 403; the owner's call reaches `Message.deleteMany`, whose
unbound `Message` identifier throws, so the call answers 500 "Server
error" and the store is exactly unchanged: the Group record, its
JoinRequest record, its Message record and the users' joined-group
indexes all survive. -/
theorem deleteGroup_owner_path_throws :
    deleteGroupRoute stW5 2 1 = (⟨403, "Insufficient permissions"⟩, stW5) ∧
    deleteGroupRoute stW5 1 1 = (⟨500, "Server error"⟩, stW5) ∧
    findGroup (deleteGroupRoute stW5 1 1).2 1 =
      some ⟨1, "g", GType.pub, "", 1, [1, 2], [1], none, "k"⟩ ∧
    (deleteGroupRoute stW5 1 1).2.requests = [⟨1, 3, JRStatus.pending, none⟩] ∧
    (deleteGroupRoute stW5 1 1).2.messages = [⟨1, 1, "c", "iv"⟩] ∧
    (deleteGroupRoute stW5 1 1).2.users = [⟨1, [1]⟩, ⟨2, [1]⟩] := by
  refine ⟨by decide, by decide, by decide, by decide, by decide, by decide⟩

/-- C2: concrete evidence that capacity is never enforced.  The group
created with a requested maxMembers of 1 is stored with no maxMembers
value at all (the schema has no such path), so a second user joins a
nominally full public group; and even on a document carrying
`maxMembers = some 1` that is already at capacity, approving a pending
request pushes the member with no capacity check, leaving the request
approved rather than pending. -/
theorem capacity_never_enforced :
    ((findGroup stC2 1).map (fun g => g.maxMembers) = some none) ∧
    (joinGroup stC2 2 1).1 = (⟨200, "Successfully joined the group"⟩ : Resp) ∧
    ((findGroup (joinGroup stC2 2 1).2 1).map (fun g => g.members) = some [1, 2]) ∧
    ((findGroup stC2full 1).map (fun g => g.maxMembers) = some (some 1)) ∧
    (approveJoinRequestRoute stC2full 1 1 2).1 = (⟨200, "Join request approved"⟩ : Resp) ∧
    ((findGroup (approveJoinRequestRoute stC2full 1 1 2).2 1).map (fun g => g.members)
      = some [1, 2]) ∧
    (approveJoinRequestRoute stC2full 1 1 2).2.requests = [⟨1, 2, JRStatus.approved, none⟩] := by
  refine ⟨by decide, by decide, by decide, by decide, by decide, by decide, by decide⟩

/-- C10: a create call whose requested name is carried by any existing
group — of either visibility — answers 400 "Group name already exists"
and leaves the store unchanged: no group record is created. -/
theorem createGroup_name_globally_unique (st : St) (caller : Nat) (name : String) (ty : GType)
    (d : String) (mm : Option Nat) (gid : Nat) (key : String) (g : Group)
    (hg : g ∈ st.groups) (hn : g.name = name) :
    createGroup st caller name ty d mm gid key = (⟨400, "Group name already exists"⟩, st) := by
  have hany : st.groups.any (fun g' => g'.name == name) = true :=
    List.any_eq_true.mpr ⟨g, hg, by simp [hn]⟩
  simp [createGroup, hany]

/-- Witness: creating a second group named "g" over `stC3` fails. -/
theorem createGroup_name_globally_unique_witness :
    (⟨1, "g", GType.pub, "", 1, [1, 2], [1], none, "k-secret"⟩ : Group) ∈ stC3.groups ∧
    (⟨1, "g", GType.pub, "", 1, [1, 2], [1], none, "k-secret"⟩ : Group).name = "g" ∧
    createGroup stC3 9 "g" GType.priv "" none 7 "kk"
      = (⟨400, "Group name already exists"⟩, stC3) :=
  ⟨by decide, rfl,
   createGroup_name_globally_unique stC3 9 "g" GType.priv "" none 7 "kk"
     ⟨1, "g", GType.pub, "", 1, [1, 2], [1], none, "k-secret"⟩ (by decide) rfl⟩

/-- C3 (counterexample): `getUserGroups` serializes the complete Group
documents, so the payload handed to member 2 carries the group's
encryptionKey. -/
theorem getUserGroups_exposes_encryptionKey :
    (getUserGroups stC3 2).map (fun g => g.encryptionKey) = ["k-secret"] := by
  decide

/-- C3 (amended): the discovery and details payloads are independent of
the stored encryptionKey — blanking every key changes neither — while
`getUserGroups` returns the raw documents (see the counterexample). -/
theorem discover_details_independent_of_key (st : St) (search : Option String)
    (caller gid : Nat) :
    discoverGroups (eraseKeys st) search = discoverGroups st search ∧
    getGroupDetails (eraseKeys st) caller gid = getGroupDetails st caller gid := by
  constructor
  · simp only [discoverGroups, eraseKeys]
    rw [List.filter_map eraseKey st.groups, (List.map_take eraseKey _ 20).symm, List.map_map]
    rfl
  · have hfind : findGroup (eraseKeys st) gid = (findGroup st gid).map eraseKey := by
      simp only [findGroup, eraseKeys]
      exact List.find?_map eraseKey st.groups
    cases hgo : findGroup st gid with
    | none =>
      rw [hgo] at hfind
      simp only [getGroupDetails, hfind, hgo, Option.map_none']
    | some g =>
      rw [hgo] at hfind
      simp only [getGroupDetails, hfind, hgo, Option.map_some']
      rfl

theorem updateFirst_map_processedAt (p : JoinRequest → Bool) (f : JoinRequest → JoinRequest)
    (hf : ∀ r, (f r).processedAt = r.processedAt) (l : List JoinRequest) :
    (updateFirst p f l).map (fun r => r.processedAt) = l.map (fun r => r.processedAt) := by
  induction l with
  | nil => rfl
  | cons r rs ih =>
    simp only [updateFirst]
    split
    · simp [hf r]
    · simp [ih]

/-- C9 (amended): the approve and decline routes rewrite only the status
of the matched request: the processedAt of every JoinRequest record is
exactly what it was before the call, so the transition out of pending is
never stamped (requests are created with no processedAt). -/
theorem processedAt_never_stamped (st : St) (caller gid u : Nat) :
    ((approveJoinRequestRoute st caller gid u).2.requests.map (fun r => r.processedAt)
      = st.requests.map (fun r => r.processedAt)) ∧
    ((declineJoinRequestRoute st caller gid u).2.requests.map (fun r => r.processedAt)
      = st.requests.map (fun r => r.processedAt)) := by
  constructor
  · unfold approveJoinRequestRoute withRole
    cases checkRole ["owner"] st caller gid with
    | some r => rfl
    | none =>
      cases hg : findGroup st gid with
      | none => simp only [approveJoinRequest, hg]
      | some g =>
        simp only [approveJoinRequest, hg]
        cases hr : st.requests.find? (isPendingFor gid u) with
        | none => simp only [hr]
        | some r =>
          simp only [hr]
          have h1 : (if memb u g.members then st
              else saveGroup st { g with members := g.members ++ [u] }).requests
              = st.requests := by
            split <;> rfl
          show ((updateFirst (isPendingFor gid u)
              (fun r' => { r' with status := JRStatus.approved })
              (if memb u g.members then st
                else saveGroup st { g with members := g.members ++ [u] }).requests).map
              (fun r' => r'.processedAt)) = st.requests.map (fun r' => r'.processedAt)
          rw [h1]
          exact updateFirst_map_processedAt (isPendingFor gid u)
            (fun r' => { r' with status := JRStatus.approved }) (fun r' => rfl) st.requests
  · unfold declineJoinRequestRoute withRole
    cases checkRole ["owner"] st caller gid with
    | some r => rfl
    | none =>
      cases hr : st.requests.find? (isPendingFor gid u) with
      | none => simp only [declineJoinRequest, hr]
      | some r =>
        simp only [declineJoinRequest, hr]
        exact updateFirst_map_processedAt (isPendingFor gid u)
          (fun r' => { r' with status := JRStatus.rejected }) (fun r' => rfl) st.requests

/-- C9 (counterexample): the owner approves the pending request of user
2 in `stC9`: the call answers 200 and the record becomes approved, yet
its processedAt is still absent. -/
theorem approve_leaves_processedAt_none :
    (approveJoinRequestRoute stC9 1 1 2).1 = (⟨200, "Join request approved"⟩ : Resp) ∧
    (approveJoinRequestRoute stC9 1 1 2).2.requests = [⟨1, 2, JRStatus.approved, none⟩] := by
  refine ⟨by decide, by decide⟩

theorem getLast?_replicate (k x : Nat) (hk : 1 ≤ k) :
    (List.replicate k x).getLast? = some x := by
  induction k with
  | zero => omega
  | succ n ih =>
    cases n with
    | zero => rfl
    | succ m =>
      rw [List.replicate_succ, List.getLast?_cons]
      simp_all [List.getLast?_cons]

theorem chunks16_append (b rest : List Nat) (hb : b.length = 16) :
    chunks16 (b ++ rest) = b :: chunks16 rest := by
  have hne : b ++ rest ≠ [] := by
    intro hc
    rcases List.append_eq_nil.mp hc with ⟨hb0, _⟩
    rw [hb0] at hb
    simp at hb
  rw [chunks16, dif_neg hne]
  congr 1
  · rw [← hb]
    exact List.take_left b rest
  · congr 1
    rw [← hb]
    exact List.drop_left b rest

theorem flatten_chunks16_aux (n : Nat) :
    ∀ l : List Nat, l.length ≤ n → (chunks16 l).flatten = l := by
  induction n with
  | zero =>
    intro l hl
    have h0 : l = [] := by
      cases l with
      | nil => rfl
      | cons a as => simp at hl
    subst h0
    rw [chunks16]
    simp
  | succ n ih =>
    intro l hl
    rw [chunks16]
    split
    · simp [*]
    · next hne =>
      have h0 : l.length ≠ 0 := fun hc => hne (List.length_eq_zero.mp hc)
      have hlen : (l.drop 16).length ≤ n := by
        rw [List.length_drop]
        omega
      simp only [List.flatten_cons]
      rw [ih _ hlen, List.take_append_drop]

theorem flatten_chunks16 (l : List Nat) : (chunks16 l).flatten = l :=
  flatten_chunks16_aux l.length l (Nat.le_refl _)

theorem chunks16_lengths_aux (n : Nat) :
    ∀ l : List Nat, l.length ≤ n → l.length % 16 = 0 → ∀ b ∈ chunks16 l, b.length = 16 := by
  induction n with
  | zero =>
    intro l hl _ b hb
    have h0 : l = [] := by
      cases l with
      | nil => rfl
      | cons a as => simp at hl
    subst h0
    rw [chunks16] at hb
    simp at hb
  | succ n ih =>
    intro l hl hmod b hb
    rw [chunks16] at hb
    split at hb
    · simp at hb
    · next hne =>
      have h0 : l.length ≠ 0 := fun hc => hne (List.length_eq_zero.mp hc)
      have h16 : 16 ≤ l.length := by omega
      rcases List.mem_cons.mp hb with rfl | hb'
      · rw [List.length_take]
        omega
      · refine ih (l.drop 16) ?_ ?_ b hb'
        · rw [List.length_drop]
          omega
        · rw [List.length_drop]
          omega

theorem chunks16_lengths (l : List Nat) (h : l.length % 16 = 0) :
    ∀ b ∈ chunks16 l, b.length = 16 :=
  chunks16_lengths_aux l.length l (Nat.le_refl _) h

theorem chunks16_flatten_blocks (bs : List (List Nat)) (hbs : ∀ b ∈ bs, b.length = 16) :
    chunks16 bs.flatten = bs := by
  induction bs with
  | nil =>
    rw [List.flatten_nil, chunks16]
    simp
  | cons b bs ih =>
    rw [List.flatten_cons, chunks16_append b _ (hbs b (List.mem_cons_self _ _))]
    rw [ih (fun b' hb' => hbs b' (List.mem_cons_of_mem _ hb'))]

theorem xorBytes_length (a b : List Nat) : (xorBytes a b).length = min a.length b.length :=
  List.length_zipWith Nat.xor a b

theorem xorBytes_cancel (a : List Nat) :
    ∀ b : List Nat, a.length = b.length → xorBytes (xorBytes a b) b = a := by
  induction a with
  | nil => intro b _; rfl
  | cons x xs ih =>
    intro b hb
    cases b with
    | nil => simp at hb
    | cons y ys =>
      show ((x ^^^ y) ^^^ y) :: xorBytes (xorBytes xs ys) ys = x :: xs
      rw [Nat.xor_assoc, Nat.xor_self, Nat.xor_zero, ih ys (by simpa using hb)]

theorem cbcEncBlocks_lengths (E : List Nat → List Nat)
    (hE : ∀ b, b.length = 16 → (E b).length = 16) :
    ∀ (bs : List (List Nat)) (iv : List Nat), iv.length = 16 → (∀ b ∈ bs, b.length = 16) →
      ∀ c ∈ cbcEncBlocks E iv bs, c.length = 16 := by
  intro bs
  induction bs with
  | nil =>
    intro iv _ _ c hc
    simp [cbcEncBlocks] at hc
  | cons b bs ih =>
    intro iv hiv hbs c hc
    have hb : b.length = 16 := hbs b (List.mem_cons_self _ _)
    have hx : (xorBytes b iv).length = 16 := by simp [xorBytes_length, hb, hiv]
    simp only [cbcEncBlocks] at hc
    rcases List.mem_cons.mp hc with rfl | hc'
    · exact hE _ hx
    · exact ih (E (xorBytes b iv)) (hE _ hx)
        (fun b' hb' => hbs b' (List.mem_cons_of_mem _ hb')) c hc'

theorem cbcDecBlocks_cbcEncBlocks (E D : List Nat → List Nat)
    (hD : ∀ b, b.length = 16 → D (E b) = b)
    (hE : ∀ b, b.length = 16 → (E b).length = 16) :
    ∀ (bs : List (List Nat)) (iv : List Nat), iv.length = 16 → (∀ b ∈ bs, b.length = 16) →
      cbcDecBlocks D iv (cbcEncBlocks E iv bs) = bs := by
  intro bs
  induction bs with
  | nil => intro iv _ _; rfl
  | cons b bs ih =>
    intro iv hiv hbs
    have hb : b.length = 16 := hbs b (List.mem_cons_self _ _)
    have hx : (xorBytes b iv).length = 16 := by simp [xorBytes_length, hb, hiv]
    show cbcDecBlocks D iv (E (xorBytes b iv) :: cbcEncBlocks E (E (xorBytes b iv)) bs)
        = b :: bs
    simp only [cbcDecBlocks]
    rw [hD _ hx, xorBytes_cancel b iv (by rw [hb, hiv]),
      ih (E (xorBytes b iv)) (hE _ hx) (fun b' hb' => hbs b' (List.mem_cons_of_mem _ hb'))]

theorem pkcs7pad_length_mod (m : List Nat) : (pkcs7pad m).length % 16 = 0 := by
  simp only [pkcs7pad, List.length_append, List.length_replicate]
  omega

theorem pkcs7unpad_pkcs7pad (m : List Nat) : pkcs7unpad (pkcs7pad m) = some m := by
  have hk1 : 1 ≤ 16 - m.length % 16 := by omega
  have hk16 : 16 - m.length % 16 ≤ 16 := by omega
  have hlast : (m ++ List.replicate (16 - m.length % 16) (16 - m.length % 16)).getLast?
      = some (16 - m.length % 16) := by
    rw [List.getLast?_append, getLast?_replicate _ _ hk1]
    rfl
  have hlen : (m ++ List.replicate (16 - m.length % 16) (16 - m.length % 16)).length
      = m.length + (16 - m.length % 16) := by simp
  have hsub : (m ++ List.replicate (16 - m.length % 16) (16 - m.length % 16)).length
      - (16 - m.length % 16) = m.length := by
    rw [hlen]
    omega
  have hdrop : (m ++ List.replicate (16 - m.length % 16) (16 - m.length % 16)).drop m.length
      = List.replicate (16 - m.length % 16) (16 - m.length % 16) := List.drop_left m _
  have hguard : 1 ≤ 16 - m.length % 16 ∧ 16 - m.length % 16 ≤ 16 ∧
      16 - m.length % 16
        ≤ (m ++ List.replicate (16 - m.length % 16) (16 - m.length % 16)).length ∧
      ((m ++ List.replicate (16 - m.length % 16) (16 - m.length % 16)).drop
        ((m ++ List.replicate (16 - m.length % 16) (16 - m.length % 16)).length
          - (16 - m.length % 16))).all (fun b => b == (16 - m.length % 16)) := by
    refine ⟨hk1, hk16, by rw [hlen]; omega, ?_⟩
    rw [hsub, hdrop]
    simp [List.all_eq_true, List.mem_replicate]
  simp only [pkcs7pad]
  simp only [pkcs7unpad, hlast]
  rw [if_pos hguard, hsub]
  exact congrArg some (List.take_left m _)

/-- C8: the encryption service round-trips.  `E`/`D` stand for the
AES-256 block permutation and its inverse under the generated key (the
OpenSSL primitive, external to the repository, guarantees exactly the
two stated laws); on top of them the implemented CBC chaining with
PKCS#7 padding satisfies `decrypt (encrypt m iv) iv = some m` for every
(non-empty) byte message and every 16-byte iv. -/
theorem encrypt_decrypt_roundtrip (E D : List Nat → List Nat)
    (hD : ∀ b, b.length = 16 → D (E b) = b)
    (hE : ∀ b, b.length = 16 → (E b).length = 16)
    (m iv : List Nat) (hiv : iv.length = 16) (hm : m ≠ []) :
    decrypt D (encrypt E m iv) iv = some m := by
  have hblocks : ∀ b ∈ chunks16 (pkcs7pad m), b.length = 16 :=
    chunks16_lengths (pkcs7pad m) (pkcs7pad_length_mod m)
  have hcb : ∀ c ∈ cbcEncBlocks E iv (chunks16 (pkcs7pad m)), c.length = 16 :=
    cbcEncBlocks_lengths E hE (chunks16 (pkcs7pad m)) iv hiv hblocks
  unfold decrypt encrypt
  rw [chunks16_flatten_blocks _ hcb,
    cbcDecBlocks_cbcEncBlocks E D hD hE _ iv hiv hblocks,
    flatten_chunks16, pkcs7unpad_pkcs7pad]

/-- Witness: the identity block permutation satisfies the block-cipher
laws, and a concrete two-byte message round-trips under it. -/
theorem encrypt_decrypt_roundtrip_witness :
    (∀ b : List Nat, b.length = 16 → (fun x : List Nat => x) ((fun x : List Nat => x) b) = b) ∧
    (∀ b : List Nat, b.length = 16 → ((fun x : List Nat => x) b).length = 16) ∧
    (List.replicate 16 0).length = 16 ∧ ([104, 105] : List Nat) ≠ [] ∧
    decrypt (fun x : List Nat => x)
      (encrypt (fun x : List Nat => x) [104, 105] (List.replicate 16 0))
      (List.replicate 16 0) = some [104, 105] :=
  ⟨fun _ _ => rfl, fun _ h => h, by simp, by simp,
   encrypt_decrypt_roundtrip (fun x : List Nat => x) (fun x : List Nat => x)
     (fun _ _ => rfl) (fun _ h => h) [104, 105] (List.replicate 16 0) (by simp) (by simp)⟩

end LYoga
